import Mathlib

/-!
Verification development for the idx-lib IDX decoder (src/lib.rs).

The byte stream handed to the Rust functions (an impl Read + Seek) is
modelled as a list of byte values together with an explicit cursor
position.  Fallible operations return Except: DecodeErr.eof models the
io UnexpectedEof error raised by read_exact on a short stream, and
DecodeErr.idx models the library IdxError value returned for an
unrecognized type code.  Machine integers are modelled as Nat and Int
with explicit reduction modulo 2 to the width where overflow matters;
f32 and f64 payloads are carried as their raw IEEE-754 bit patterns.
-/

/-- Tagged scalar type, one constructor per IDX element type.  Mirrors the
Rust enum IdxData; the f32 and f64 payloads are carried as their raw
IEEE-754 bit patterns (a natural number below 2^32 resp. 2^64), signed
integer payloads as mathematical integers in the two-complement value
range of the corresponding width. -/
inductive IdxData where
  | None : IdxData
  | UnsignedByte : Nat → IdxData
  | SignedByte : ℤ → IdxData
  | Short : ℤ → IdxData
  | Int : ℤ → IdxData
  | Float : Nat → IdxData
  | Double : Nat → IdxData
deriving DecidableEq

/-- Exponent field of an IEEE-754 binary32 bit pattern. -/
def f32exp (bits : Nat) : Nat := bits / 2 ^ 23 % 2 ^ 8

/-- Fraction field of an IEEE-754 binary32 bit pattern. -/
def f32frac (bits : Nat) : Nat := bits % 2 ^ 23

/-- Sign bit of an IEEE-754 binary32 bit pattern. -/
def f32sign (bits : Nat) : Nat := bits / 2 ^ 31 % 2

/-- Whether a binary32 bit pattern denotes a NaN. -/
def f32isNaN (bits : Nat) : Bool := f32exp bits == 255 && f32frac bits != 0

/-- Whether a binary32 bit pattern denotes a zero (either sign). -/
def f32isZero (bits : Nat) : Bool := bits % 2 ^ 31 == 0

/-- IEEE-754 equality on binary32 bit patterns, as used by the derived
PartialEq of the Rust enum on its f32 payload: NaN compares unequal to
everything, positive and negative zero compare equal, and all other
values compare equal exactly when their bit patterns coincide. -/
def f32eqBits (a b : Nat) : Bool :=
  if f32isNaN a || f32isNaN b then false
  else if f32isZero a && f32isZero b then true
  else a == b

/-- Exact IEEE-754 doubling of a binary32 value, on bit patterns: adding a
finite binary32 value to itself is exact (the exponent grows by one, or
the subnormal fraction shifts), overflowing to the infinity of the same
sign, and infinities double to themselves. -/
def f32double (bits : Nat) : Nat :=
  let s := f32sign bits
  let e := f32exp bits
  let m := f32frac bits
  if e = 255 then bits
  else if e = 0 then s * 2 ^ 31 + 2 * m
  else if e = 254 then s * 2 ^ 31 + 255 * 2 ^ 23
  else s * 2 ^ 31 + (e + 1) * 2 ^ 23 + m

/-- IEEE-754 binary32 addition as invoked by the Rust addition operator.
In the source the f32 sum val1 + val2 is only computed after the guard
self != rhs has established val1 == val2 under IEEE equality, that is,
either identical non-NaN bit patterns (where the sum is the exact
doubling) or a mix of positive and negative zero (where round to nearest
gives positive zero).  On bit pattern pairs that the guard excludes the
value chosen here is never observed by IdxData.add. -/
def f32add (a b : Nat) : Nat :=
  if a == b then f32double a else 0

/-- Exponent field of an IEEE-754 binary64 bit pattern. -/
def f64exp (bits : Nat) : Nat := bits / 2 ^ 52 % 2 ^ 11

/-- Fraction field of an IEEE-754 binary64 bit pattern. -/
def f64frac (bits : Nat) : Nat := bits % 2 ^ 52

/-- Sign bit of an IEEE-754 binary64 bit pattern. -/
def f64sign (bits : Nat) : Nat := bits / 2 ^ 63 % 2

/-- Whether a binary64 bit pattern denotes a NaN. -/
def f64isNaN (bits : Nat) : Bool := f64exp bits == 2047 && f64frac bits != 0

/-- Whether a binary64 bit pattern denotes a zero (either sign). -/
def f64isZero (bits : Nat) : Bool := bits % 2 ^ 63 == 0

/-- IEEE-754 equality on binary64 bit patterns; see f32eqBits. -/
def f64eqBits (a b : Nat) : Bool :=
  if f64isNaN a || f64isNaN b then false
  else if f64isZero a && f64isZero b then true
  else a == b

/-- Exact IEEE-754 doubling of a binary64 value, on bit patterns; see
f32double. -/
def f64double (bits : Nat) : Nat :=
  let s := f64sign bits
  let e := f64exp bits
  let m := f64frac bits
  if e = 2047 then bits
  else if e = 0 then s * 2 ^ 63 + 2 * m
  else if e = 2046 then s * 2 ^ 63 + 2047 * 2 ^ 52
  else s * 2 ^ 63 + (e + 1) * 2 ^ 52 + m

/-- IEEE-754 binary64 addition as invoked by the Rust addition operator;
see f32add for the reachability argument. -/
def f64add (a b : Nat) : Nat :=
  if a == b then f64double a else 0

/-- Equality test on scalars, mirroring the derived PartialEq on the Rust
enum: two values are equal when they carry the same constructor and
equal payloads, where the f32 and f64 payloads are compared with IEEE
equality. -/
def IdxData.beq : IdxData → IdxData → Bool
  | .None, .None => true
  | .UnsignedByte a, .UnsignedByte b => a == b
  | .SignedByte a, .SignedByte b => a == b
  | .Short a, .Short b => a == b
  | .Int a, .Int b => a == b
  | .Float a, .Float b => f32eqBits a b
  | .Double a, .Double b => f64eqBits a b
  | _, _ => false

/-- Result of wrapping a mathematical sum into an unsigned 8-bit payload.
The Rust source computes val1 + val2 on u8, which wraps modulo 2^8 in
release builds (and panics in debug builds); the wrapping behaviour is
the one embedded here. -/
def wrapU8 (n : Nat) : Nat := n % 2 ^ 8

/-- Result of wrapping a mathematical sum into a signed payload of width w
bits, two-complement.  The Rust source computes val1 + val2 on i8, i16
or i32, which wraps in release builds (and panics in debug builds); the
wrapping behaviour is the one embedded here. -/
def wrapI (w : Nat) (v : ℤ) : ℤ := (v + 2 ^ (w - 1)) % 2 ^ w - 2 ^ (w - 1)

/-- Addition on scalars, mirroring impl std::ops::Add for IdxData.  The
source first tests if self != rhs and returns Self::None when the test
fires; the derived PartialEq used by that test compares payloads, not
just variants.  It then matches on self and extracts the payload of rhs
with an if let of the same constructor; the fall-through arms below model
the unreachable branches of the source, which the guard makes dead. -/
def IdxData.add (self rhs : IdxData) : IdxData :=
  if !(IdxData.beq self rhs) then IdxData.None
  else
    match self, rhs with
    | .None, _ => IdxData.None
    | .UnsignedByte val1, .UnsignedByte val2 => .UnsignedByte (wrapU8 (val1 + val2))
    | .SignedByte val1, .SignedByte val2 => .SignedByte (wrapI 8 (val1 + val2))
    | .Short val1, .Short val2 => .Short (wrapI 16 (val1 + val2))
    | .Int val1, .Int val2 => .Int (wrapI 32 (val1 + val2))
    | .Float val1, .Float val2 => .Float (f32add val1 val2)
    | .Double val1, .Double val2 => .Double (f64add val1 val2)
    | _, _ => IdxData.None

/-- Additive identity declared by impl num_traits::identities::Zero for
IdxData: the zero method returns Self::None. -/
def IdxData.zero : IdxData := IdxData.None

/-- The is_zero method of the Zero impl: self == &Self::None under the
derived PartialEq. -/
def IdxData.is_zero (self : IdxData) : Bool := IdxData.beq self IdxData.None

/-- Whether two scalars carry the same constructor (the same enum
variant), ignoring payloads. -/
def IdxData.sameVariant : IdxData → IdxData → Bool
  | .None, .None => true
  | .UnsignedByte _, .UnsignedByte _ => true
  | .SignedByte _, .SignedByte _ => true
  | .Short _, .Short _ => true
  | .Int _, .Int _ => true
  | .Float _, .Float _ => true
  | .Double _, .Double _ => true
  | _, _ => false

/-- Element type tag, mirroring the private Rust enum IdxType. -/
inductive IdxType where
  | UnsignedByte
  | SignedByte
  | Short
  | Int
  | Float
  | Double
deriving DecidableEq

/-- Decode failures.  idx models the library IdxError value (returned only
for an unrecognized type code); eof models the io UnexpectedEof error
produced by read_exact when the stream holds fewer bytes than requested.
Both reach the caller as the boxed error of the Result. -/
inductive DecodeErr where
  | idx
  | eof
deriving DecidableEq

/-- Model of read_exact on the stream: succeed with the next n bytes and
the advanced cursor when at least n bytes remain past the cursor, fail
with UnexpectedEof otherwise. -/
def read_exact (idx_source : List Nat) (pos n : Nat) : Except DecodeErr (List Nat × Nat) :=
  if pos + n ≤ idx_source.length then .ok ((idx_source.drop pos).take n, pos + n)
  else .error .eof

/-- Big-endian interpretation of a byte buffer, as computed by the Rust
from_be_bytes conversions on the unsigned view of the buffer. -/
def be_nat (buf : List Nat) : Nat := buf.foldl (fun acc b => acc * 256 + b) 0

/-- Two-complement reinterpretation of a w-bit unsigned value as a signed
integer, as performed by i8 / i16 / i32 from_be_bytes. -/
def toSigned (w : Nat) (n : Nat) : ℤ :=
  if n < 2 ^ (w - 1) then (n : ℤ) else (n : ℤ) - 2 ^ w

/-- The cast expression i32-value as usize of the source, on a 64-bit
target: sign extension to 64 bits reinterpreted as unsigned, which is
reduction modulo 2^64. -/
def usize_of_i32 (v : ℤ) : Nat := (v % 2 ^ 64).toNat

/-- The type code table of read_idx: the match on the third header byte. -/
def parse_type (b : Nat) : Except DecodeErr IdxType :=
  if b = 0x08 then .ok .UnsignedByte
  else if b = 0x09 then .ok .SignedByte
  else if b = 0x0B then .ok .Short
  else if b = 0x0C then .ok .Int
  else if b = 0x0D then .ok .Float
  else if b = 0x0E then .ok .Double
  else .error .idx

/-- The dimension-size loop of read_idx: read the given number of 4-byte
big-endian fields, reinterpret each as an i32 and cast it to usize with
no validation, collecting the cast results in order. -/
def read_dims (idx_source : List Nat) (pos : Nat) : Nat → Except DecodeErr (List Nat × Nat)
  | 0 => .ok ([], pos)
  | k + 1 =>
    match read_exact idx_source pos 4 with
    | .error e => .error e
    | .ok (buf, pos') =>
      match read_dims idx_source pos' k with
      | .error e => .error e
      | .ok (rest, pos'') => .ok (usize_of_i32 (toSigned 32 (be_nat buf)) :: rest, pos'')

/-- The leaf block of recurser: the match on data_type that reads one
scalar of the width dictated by the type tag from the stream, big-endian,
and wraps it in the matching IdxData constructor. -/
def readScalar (idx_source : List Nat) (data_type : IdxType) (pos : Nat) :
    Except DecodeErr (IdxData × Nat) :=
  match data_type with
  | .UnsignedByte =>
    match read_exact idx_source pos 1 with
    | .error e => .error e
    | .ok (buf, pos') => .ok (IdxData.UnsignedByte (be_nat buf), pos')
  | .SignedByte =>
    match read_exact idx_source pos 1 with
    | .error e => .error e
    | .ok (buf, pos') => .ok (IdxData.SignedByte (toSigned 8 (be_nat buf)), pos')
  | .Short =>
    match read_exact idx_source pos 2 with
    | .error e => .error e
    | .ok (buf, pos') => .ok (IdxData.Short (toSigned 16 (be_nat buf)), pos')
  | .Int =>
    match read_exact idx_source pos 4 with
    | .error e => .error e
    | .ok (buf, pos') => .ok (IdxData.Int (toSigned 32 (be_nat buf)), pos')
  | .Float =>
    match read_exact idx_source pos 4 with
    | .error e => .error e
    | .ok (buf, pos') => .ok (IdxData.Float (be_nat buf), pos')
  | .Double =>
    match read_exact idx_source pos 8 with
    | .error e => .error e
    | .ok (buf, pos') => .ok (IdxData.Double (be_nat buf), pos')

/-- Row-major flat position of a full-rank coordinate vector inside a
shape, as used by the ndarray indexing data at past_idxes: the last
dimension varies fastest. -/
def flatIndex (shape idxes : List Nat) : Nat :=
  (shape.zip idxes).foldl (fun acc di => acc * di.1 + di.2) 0

/-- The external ndarray ArrayD container, reduced to the three
capabilities the decoder uses: allocation from a shape, default-valued
initialization and indexed assignment.  The element buffer is kept flat
in row-major order. -/
structure ArrayD where
  shape : List Nat
  data : List IdxData
deriving DecidableEq

/-- ArrayD::zeros on a dynamic shape: every one of the product-many
elements is initialized with the Zero impl of the element type, which
for IdxData returns Self::None. -/
def ArrayD.zeros (dims : List Nat) : ArrayD :=
  ⟨dims, List.replicate dims.prod IdxData.zero⟩

mutual
/-- The recursive traversal recurser of the source.  The source keeps the
full dimension list and tests past_idxes.len() == dimension_sizes.len()
to detect a leaf, reading the loop bound dimension_sizes[past_idxes.len()]
otherwise; here the suffix of the dimension list that is still to be
traversed is passed explicitly (remaining equals dimension_sizes with the
first past_idxes.length entries dropped), so the leaf test becomes
remaining = [] and the loop bound becomes its head.  At a leaf one scalar
is read and stored at the coordinate named by past_idxes; otherwise the
loop body of the source (push a slot, iterate it from 0 up to the bound,
pop the slot) is modelled by recurseLoop, which appends the current index
for each iteration. -/
def recurser (idx_source : List Nat) (data_type : IdxType) (dimension_sizes : List Nat)
    (remaining : List Nat) (past_idxes : List Nat) (data : List IdxData) (pos : Nat) :
    Except DecodeErr (List IdxData × Nat) :=
  match remaining with
  | [] =>
    match readScalar idx_source data_type pos with
    | .error e => .error e
    | .ok (v, pos') => .ok (data.set (flatIndex dimension_sizes past_idxes) v, pos')
  | d :: rest =>
    recurseLoop idx_source data_type dimension_sizes rest past_idxes d 0 data pos
termination_by (remaining.length, 1, 0)

/-- The for loop of recurser over one dimension: k iterations are still to
run and i is the index value of the current iteration; each iteration
recurses one dimension deeper with the current index appended, stopping
at the first error. -/
def recurseLoop (idx_source : List Nat) (data_type : IdxType) (dimension_sizes : List Nat)
    (rest : List Nat) (past_idxes : List Nat) (k : Nat) (i : Nat)
    (data : List IdxData) (pos : Nat) : Except DecodeErr (List IdxData × Nat) :=
  match k with
  | 0 => .ok (data, pos)
  | k' + 1 =>
    match recurser idx_source data_type dimension_sizes rest (past_idxes ++ [i]) data pos with
    | .error e => .error e
    | .ok (data', pos') =>
      recurseLoop idx_source data_type dimension_sizes rest past_idxes k' (i + 1) data' pos'
termination_by (rest.length + 1, 0, k)
end

/-- The wrapper process_dimensions: start the traversal with an empty
coordinate accumulator (and, in this embedding, with the full dimension
list still to traverse). -/
def process_dimensions (idx_source : List Nat) (data : List IdxData)
    (dimension_sizes : List Nat) (data_type : IdxType) (pos : Nat) :
    Except DecodeErr (List IdxData × Nat) :=
  recurser idx_source data_type dimension_sizes dimension_sizes [] data pos

/-- The public entry point read_idx.  The first two reserved bytes are
skipped with seek_relative(2), which succeeds whatever the stream length;
the type byte and the dimension-count byte are both read before the type
code is matched; the dimension sizes are then read, the array allocated
with ArrayD::zeros and filled by process_dimensions.  On success the
filled array is returned together with the final cursor position (the
Rust stream argument is mutable, so the cursor is observable by the
caller). -/
def read_idx (idx_source : List Nat) : Except DecodeErr (ArrayD × Nat) :=
  let pos := 2
  match read_exact idx_source pos 1 with
  | .error e => .error e
  | .ok (data_type_buf, pos) =>
    match read_exact idx_source pos 1 with
    | .error e => .error e
    | .ok (dimension_count_buf, pos) =>
      match parse_type (be_nat data_type_buf) with
      | .error e => .error e
      | .ok data_type =>
        match read_dims idx_source pos (be_nat dimension_count_buf) with
        | .error e => .error e
        | .ok (dimension_sizes, pos) =>
          let data := ArrayD.zeros dimension_sizes
          match process_dimensions idx_source data.data dimension_sizes data_type pos with
          | .error e => .error e
          | .ok (filled, pos) => .ok (⟨dimension_sizes, filled⟩, pos)

/-- Number of element bytes consumed for one scalar of each type tag, as
fixed by the buffer sizes in the leaf block of recurser. -/
def width : IdxType → Nat
  | .UnsignedByte => 1
  | .SignedByte => 1
  | .Short => 2
  | .Int => 4
  | .Float => 4
  | .Double => 8

/-- Header byte value of each type tag, inverse of the parse_type table. -/
def typeCode : IdxType → Nat
  | .UnsignedByte => 0x08
  | .SignedByte => 0x09
  | .Short => 0x0B
  | .Int => 0x0C
  | .Float => 0x0D
  | .Double => 0x0E

/-- Big-endian 4-byte encoding of a dimension size, used to build concrete
valid headers in the theorem statements. -/
def be32 (d : Nat) : List Nat :=
  [d / 2 ^ 24 % 256, d / 2 ^ 16 % 256, d / 2 ^ 8 % 256, d % 256]

/-- Concatenated encodings of a dimension vector. -/
def encDims (dims : List Nat) : List Nat := (dims.map be32).flatten

/-- A well-formed IDX header: two reserved zero bytes, the type code, the
dimension count and the big-endian dimension sizes. -/
def mkHeader (ty : IdxType) (dims : List Nat) : List Nat :=
  [0, 0, typeCode ty, dims.length] ++ encDims dims

/-- Whether a decoded scalar carries the constructor dictated by a type
tag. -/
def variantMatches : IdxData → IdxType → Bool
  | .UnsignedByte _, .UnsignedByte => true
  | .SignedByte _, .SignedByte => true
  | .Short _, .Short => true
  | .Int _, .Int => true
  | .Float _, .Float => true
  | .Double _, .Double => true
  | _, _ => false

/-- Exact rational value denoted by a finite IEEE-754 binary32 bit
pattern (none for infinities and NaNs); this is the standard meaning
function of the interchange format, used to state what value a decoded
float field represents. -/
def f32ValQ (bits : Nat) : Option ℚ :=
  let s : ℚ := if bits / 2 ^ 31 % 2 = 0 then 1 else -1
  let e := f32exp bits
  let m := f32frac bits
  if e = 255 then none
  else if e = 0 then some (s * ((m : ℚ) / 2 ^ 23) * 2 / 2 ^ 127)
  else some (s * (1 + (m : ℚ) / 2 ^ 23) * 2 ^ e / 2 ^ 127)

/-! Helper lemmas about the stream primitives. -/

theorem read_exact_eof (src : List Nat) (pos n : Nat) (h : src.length < pos + n) :
    read_exact src pos n = .error .eof := by
  simp only [read_exact, if_neg (by omega : ¬pos + n ≤ src.length)]

theorem read_exact_append (pre rest : List Nat) (n : Nat) (h : n ≤ rest.length) :
    read_exact (pre ++ rest) pre.length n = .ok (rest.take n, pre.length + n) := by
  simp only [read_exact, List.length_append]
  rw [if_pos (by omega), List.drop_left]

theorem readScalar_ok (src : List Nat) (ty : IdxType) (pos : Nat)
    (h : pos + width ty ≤ src.length) :
    ∃ v, readScalar src ty pos = .ok (v, pos + width ty) := by
  cases ty <;> simp only [width] at h ⊢ <;>
    simp only [readScalar, read_exact, if_pos h] <;> exact ⟨_, rfl⟩

theorem readScalar_eof (src : List Nat) (ty : IdxType) (pos : Nat) (h : src.length ≤ pos) :
    readScalar src ty pos = .error .eof := by
  have h1 := read_exact_eof src pos 1 (by omega)
  have h2 := read_exact_eof src pos 2 (by omega)
  have h4 := read_exact_eof src pos 4 (by omega)
  have h8 := read_exact_eof src pos 8 (by omega)
  cases ty <;> simp only [readScalar, h1, h2, h4, h8]

theorem width_pos (ty : IdxType) : 1 ≤ width ty := by cases ty <;> simp [width]

/-- When at least width ty * remaining.prod element bytes remain past the
cursor, the traversal succeeds, consumes exactly that many bytes and
preserves the length of the element buffer. -/
theorem recurser_ok (src : List Nat) (ty : IdxType) (dims : List Nat) :
    ∀ (remaining past : List Nat) (data : List IdxData) (pos : Nat),
    pos + width ty * remaining.prod ≤ src.length →
    ∃ data', recurser src ty dims remaining past data pos
        = .ok (data', pos + width ty * remaining.prod) ∧ data'.length = data.length := by
  intro remaining
  induction remaining with
  | nil =>
    intro past data pos h
    simp only [List.prod_nil, Nat.mul_one] at h ⊢
    obtain ⟨v, hv⟩ := readScalar_ok src ty pos h
    refine ⟨data.set (flatIndex dims past) v, ?_, by simp⟩
    rw [recurser, hv]
  | cons d rest ih =>
    intro past data pos h
    have key : ∀ (k i : Nat) (data : List IdxData) (pos : Nat),
        pos + k * (width ty * rest.prod) ≤ src.length →
        ∃ data', recurseLoop src ty dims rest past k i data pos
            = .ok (data', pos + k * (width ty * rest.prod)) ∧ data'.length = data.length := by
      intro k
      induction k with
      | zero =>
        intro i data pos hk
        exact ⟨data, by rw [recurseLoop]; simp, rfl⟩
      | succ k ihk =>
        intro i data pos hk
        have e1 : pos + (k + 1) * (width ty * rest.prod)
            = pos + width ty * rest.prod + k * (width ty * rest.prod) := by ring
        rw [e1] at hk
        obtain ⟨data1, hrec, hlen1⟩ := ih (past ++ [i]) data pos (by omega)
        obtain ⟨data2, hloop, hlen2⟩ := ihk (i + 1) data1 (pos + width ty * rest.prod) hk
        refine ⟨data2, ?_, by omega⟩
        rw [recurseLoop, hrec]
        show recurseLoop src ty dims rest past k (i + 1) data1 (pos + width ty * rest.prod)
            = Except.ok (data2, pos + (k + 1) * (width ty * rest.prod))
        rw [hloop, e1]
    have e2 : width ty * (d :: rest).prod = d * (width ty * rest.prod) := by
      rw [List.prod_cons]; ring
    rw [e2] at h ⊢
    obtain ⟨data', hloop, hlen⟩ := key d 0 data pos h
    exact ⟨data', by rw [recurser, hloop], hlen⟩

/-- When the dimension product is positive and the cursor already sits at
or past the end of the stream, the traversal fails with the truncation
error. -/
theorem recurser_eof (src : List Nat) (ty : IdxType) (dims : List Nat) :
    ∀ (remaining past : List Nat) (data : List IdxData) (pos : Nat),
    1 ≤ remaining.prod → src.length ≤ pos →
    recurser src ty dims remaining past data pos = .error .eof := by
  intro remaining
  induction remaining with
  | nil =>
    intro past data pos _ hlen
    rw [recurser, readScalar_eof src ty pos hlen]
  | cons d rest ih =>
    intro past data pos hprod hlen
    rw [List.prod_cons] at hprod
    have hd : d ≠ 0 := by rintro rfl; rw [Nat.zero_mul] at hprod; omega
    have hrest : 1 ≤ rest.prod := by
      rcases Nat.eq_zero_or_pos rest.prod with h0 | h1
      · rw [h0, Nat.mul_zero] at hprod; omega
      · exact h1
    obtain ⟨k, rfl⟩ : ∃ k, d = k + 1 := ⟨d - 1, by omega⟩
    rw [recurser, recurseLoop, ih (past ++ [0]) data pos hrest hlen]

/-- Reading exactly the bytes of a middle segment whose start the cursor
points at returns that segment and advances past it. -/
theorem read_exact_at (pre mid rest : List Nat) (p n : Nat)
    (hp : pre.length = p) (hn : mid.length = n) :
    read_exact (pre ++ (mid ++ rest)) p n = .ok (mid, p + n) := by
  subst hp; subst hn
  rw [read_exact_append pre (mid ++ rest) mid.length (by simp), List.take_left]

theorem encDims_cons (d : Nat) (rest : List Nat) :
    encDims (d :: rest) = be32 d ++ encDims rest := by
  simp [encDims]

theorem be_nat_be32 (d : Nat) (h : d < 2 ^ 32) : be_nat (be32 d) = d := by
  simp only [be_nat, be32, List.foldl_cons, List.foldl_nil]
  omega

/-- A dimension size below 2^31 encodes to a non-negative i32, so the
decode and cast chain of the dimension loop returns it unchanged. -/
theorem dim_decode (d : Nat) (h : d < 2 ^ 31) :
    usize_of_i32 (toSigned 32 (be_nat (be32 d))) = d := by
  rw [be_nat_be32 d (by omega)]
  simp only [toSigned, usize_of_i32]
  rw [if_pos (by omega : (d : Nat) < 2 ^ (32 - 1))]
  omega

/-- The dimension loop on an encoded dimension vector of non-negative
sizes returns exactly that vector and consumes 4 bytes per entry. -/
theorem read_dims_enc (dims : List Nat) (hd : ∀ d ∈ dims, d < 2 ^ 31) :
    ∀ (pre rest : List Nat) (p : Nat), pre.length = p →
    read_dims (pre ++ (encDims dims ++ rest)) p dims.length = .ok (dims, p + 4 * dims.length) := by
  induction dims with
  | nil =>
    intro pre rest p hp
    simp [read_dims]
  | cons d ds ih =>
    intro pre rest p hp
    simp only [List.length_cons]
    rw [read_dims]
    rw [encDims_cons, List.append_assoc]
    rw [read_exact_at pre (be32 d) (encDims ds ++ rest) p 4 hp rfl]
    show (match read_dims (pre ++ (be32 d ++ (encDims ds ++ rest))) (p + 4) ds.length with
      | Except.error e => Except.error e
      | Except.ok (rest', pos'') =>
          Except.ok (usize_of_i32 (toSigned 32 (be_nat (be32 d))) :: rest', pos''))
      = Except.ok (d :: ds, p + 4 * (ds.length + 1))
    rw [← List.append_assoc]
    rw [ih (fun x hx => hd x (List.mem_cons_of_mem d hx)) (pre ++ be32 d) rest (p + 4)
      (by simp [be32, hp])]
    rw [dim_decode d (hd d (List.mem_cons_self d ds))]
    show Except.ok (d :: ds, p + 4 + 4 * ds.length)
        = (Except.ok (d :: ds, p + 4 * (ds.length + 1)) : Except DecodeErr (List Nat × Nat))
    congr 2
    omega

theorem parse_typeCode (ty : IdxType) : parse_type (typeCode ty) = .ok ty := by
  cases ty <;> rfl

theorem encDims_length (dims : List Nat) : (encDims dims).length = 4 * dims.length := by
  induction dims with
  | nil => rfl
  | cons d ds ih =>
    rw [encDims_cons, List.length_append, ih]
    simp only [be32, List.length_cons, List.length_nil]
    omega

/-- Unfolding of read_idx on a stream that starts with a well-formed
header of non-negative dimension sizes: the header parse succeeds and the
result is whatever the traversal produces on the zero-initialized
buffer, starting right after the header. -/
theorem read_idx_decomp (ty : IdxType) (dims : List Nat) (body : List Nat)
    (hd : ∀ d ∈ dims, d < 2 ^ 31) :
    read_idx (mkHeader ty dims ++ body)
      = match recurser (mkHeader ty dims ++ body) ty dims dims []
            (List.replicate dims.prod IdxData.zero) (4 + 4 * dims.length) with
        | Except.error e => Except.error e
        | Except.ok (filled, pos) => Except.ok (⟨dims, filled⟩, pos) := by
  have e2 : mkHeader ty dims ++ body
      = [0, 0] ++ ([typeCode ty] ++ ([dims.length] ++ (encDims dims ++ body))) := by
    simp [mkHeader]
  have e3 : mkHeader ty dims ++ body
      = [0, 0, typeCode ty] ++ ([dims.length] ++ (encDims dims ++ body)) := by
    simp [mkHeader]
  have e4 : mkHeader ty dims ++ body
      = [0, 0, typeCode ty, dims.length] ++ (encDims dims ++ body) := by
    simp [mkHeader]
  have h1 : read_exact (mkHeader ty dims ++ body) 2 1 = .ok ([typeCode ty], 3) := by
    rw [e2]; exact read_exact_at _ _ _ 2 1 rfl rfl
  have h2 : read_exact (mkHeader ty dims ++ body) 3 1 = .ok ([dims.length], 4) := by
    rw [e3]; exact read_exact_at _ _ _ 3 1 rfl rfl
  have hbe : be_nat [typeCode ty] = typeCode ty := by simp [be_nat]
  have hbe2 : be_nat [dims.length] = dims.length := by simp [be_nat]
  have h3 : read_dims (mkHeader ty dims ++ body) 4 dims.length
      = .ok (dims, 4 + 4 * dims.length) := by
    rw [e4]; exact read_dims_enc dims hd _ _ 4 rfl
  simp only [read_idx, h1, h2, hbe, hbe2, parse_typeCode, h3, process_dimensions, ArrayD.zeros]

theorem mkHeader_length (ty : IdxType) (dims : List Nat) :
    (mkHeader ty dims).length = 4 + 4 * dims.length := by
  simp [mkHeader, encDims_length]
  omega

theorem read_exact_ok_pos (src : List Nat) (pos n : Nat) (buf : List Nat) (p : Nat)
    (h : read_exact src pos n = .ok (buf, p)) : p = pos + n := by
  simp only [read_exact] at h
  split at h
  · exact ((Prod.mk.injEq _ _ _ _).mp (Except.ok.inj h)).2.symm
  · exact Except.noConfusion h

/-! Claim theorems. -/

/-- Claim C1.  The claim states that adding two scalars of the identical
variant always yields that variant holding the sum of the payloads, with
UnsignedByte(3) + UnsignedByte(5) = UnsignedByte(8) as its example.  The
code disagrees: the guard if self != rhs uses the derived PartialEq,
which compares payloads as well as variants, so two UnsignedByte scalars
with different payloads add to the absent variant.  This theorem
evaluates the addition of the source at the failing input of the claim:
the result is IdxData.None rather than UnsignedByte 8. -/
theorem C1_same_variant_sum_returns_absent :
    IdxData.add (IdxData.UnsignedByte 3) (IdxData.UnsignedByte 5) = IdxData.None
      ∧ IdxData.None ≠ IdxData.UnsignedByte 8 := by decide

/-- Claim C2.  For every valid header declaring dimension sizes dims
followed by at least width ty * dims.prod bytes of element data, read_idx
succeeds and returns a tensor whose shape is exactly dims and whose
element buffer holds dims.prod elements (one element when dims is
empty, since the empty product is 1). -/
theorem C2_round_trip_shape (ty : IdxType) (dims body : List Nat)
    (hd : ∀ d ∈ dims, d < 2 ^ 31) (_hn : dims.length < 256)
    (hb : width ty * dims.prod ≤ body.length) :
    ∃ (arr : ArrayD) (pos : Nat),
      read_idx (mkHeader ty dims ++ body) = .ok (arr, pos)
        ∧ arr.shape = dims ∧ arr.data.length = dims.prod := by
  rw [read_idx_decomp ty dims body hd]
  have hlen : (mkHeader ty dims ++ body).length = 4 + 4 * dims.length + body.length := by
    rw [List.length_append, mkHeader_length]
  obtain ⟨data', hrec, hdl⟩ := recurser_ok (mkHeader ty dims ++ body) ty dims dims []
      (List.replicate dims.prod IdxData.zero) (4 + 4 * dims.length) (by rw [hlen]; omega)
  rw [hrec]
  exact ⟨⟨dims, data'⟩, _, rfl, rfl, by rw [hdl, List.length_replicate]⟩

/-- Witness for claim C2: a concrete one-dimensional stream of two
unsigned bytes decodes to a tensor of shape [2] with two elements. -/
theorem C2_round_trip_shape_witness :
    ∃ (arr : ArrayD) (pos : Nat),
      read_idx (mkHeader IdxType.UnsignedByte [2] ++ [7, 9]) = .ok (arr, pos)
        ∧ arr.shape = [2] ∧ arr.data.length = List.prod [2] :=
  C2_round_trip_shape IdxType.UnsignedByte [2] [7, 9] (by decide) (by decide) (by decide)

/-- Claim C3.  Every successfully decoded scalar carries the constructor
dictated by the type tag and the read consumes exactly the width of that
tag; moreover the payload is the big-endian interpretation of the
consumed bytes: byte 0xFF decodes to 255 under the unsigned-byte code
and to -1 under the signed-byte code, the int field 0x00 0x00 0x01 0x00
decodes to 256, and the float field 0x3F 0x80 0x00 0x00 decodes to the
bit pattern 0x3F800000, whose IEEE-754 value is exactly 1. -/
theorem C3_type_and_value_fidelity :
    (∀ (ty : IdxType) (src : List Nat) (pos : Nat) (v : IdxData) (pos' : Nat),
        readScalar src ty pos = .ok (v, pos') →
        variantMatches v ty = true ∧ pos' = pos + width ty)
    ∧ readScalar [0xFF] IdxType.UnsignedByte 0 = .ok (IdxData.UnsignedByte 255, 1)
    ∧ readScalar [0xFF] IdxType.SignedByte 0 = .ok (IdxData.SignedByte (-1), 1)
    ∧ readScalar [0x00, 0x00, 0x01, 0x00] IdxType.Int 0 = .ok (IdxData.Int 256, 4)
    ∧ readScalar [0x3F, 0x80, 0x00, 0x00] IdxType.Float 0 = .ok (IdxData.Float 0x3F800000, 4)
    ∧ f32ValQ 0x3F800000 = some 1 := by
  refine ⟨?_, rfl, rfl, rfl, rfl, by norm_num [f32ValQ, f32exp, f32frac]⟩
  intro ty src pos v pos' h
  cases ty <;>
    · simp only [readScalar] at h
      split at h
      · exact Except.noConfusion h
      · rename_i buf p heq
        have hp := read_exact_ok_pos src pos _ buf p heq
        obtain ⟨hv, hp'⟩ := (Prod.mk.injEq _ _ _ _).mp (Except.ok.inj h)
        subst hv
        subst hp'
        subst hp
        simp [variantMatches, width]

/-- Witness for claim C3: the general fidelity statement applied to the
concrete signed-byte decode of the byte 0xFF. -/
theorem C3_type_and_value_fidelity_witness :
    variantMatches (IdxData.SignedByte (-1)) IdxType.SignedByte = true
      ∧ (1 : Nat) = 0 + width IdxType.SignedByte :=
  C3_type_and_value_fidelity.1 IdxType.SignedByte [0xFF] 0 (IdxData.SignedByte (-1)) 1 rfl

/-- Claim C4.  A stream that ends exactly after a valid header whose
dimension sizes have a positive product fails with the truncation error
and produces no tensor: the Except value is a terminal error, so the
caller never sees a partially filled tensor. -/
theorem C4_truncated_stream (ty : IdxType) (dims : List Nat)
    (hd : ∀ d ∈ dims, d < 2 ^ 31) (_hn : dims.length < 256) (hp : 1 ≤ dims.prod) :
    read_idx (mkHeader ty dims) = .error DecodeErr.eof := by
  have h := read_idx_decomp ty dims [] hd
  rw [List.append_nil] at h
  rw [h, recurser_eof (mkHeader ty dims) ty dims dims []
    (List.replicate dims.prod IdxData.zero) (4 + 4 * dims.length) hp
    (by rw [mkHeader_length])]

/-- Witness for claim C4: the header that declares one dimension of size
one and is followed by no element bytes fails with the truncation
error. -/
theorem C4_truncated_stream_witness :
    read_idx (mkHeader IdxType.UnsignedByte [1]) = .error DecodeErr.eof :=
  C4_truncated_stream IdxType.UnsignedByte [1] (by decide) (by decide) (by decide)

/-- Counterexample to claim C5 as stated.  The claim asserts that every
stream whose byte at offset 2 lies outside the six recognized codes
fails with the unrecognized-type error; but read_idx reads the
dimension-count byte at offset 3 before matching the type code, so the
three-byte stream 0x00 0x00 0x07, whose type-code byte is the
unrecognized 0x07, fails with the truncation error instead. -/
theorem C5_counterexample_truncated :
    read_idx [0, 0, 0x07] = .error DecodeErr.eof
      ∧ read_idx [0, 0, 0x07] ≠ .error DecodeErr.idx := by
  refine ⟨rfl, fun h => ?_⟩
  rw [show read_idx [0, 0, 0x07] = .error DecodeErr.eof from rfl] at h
  exact (by decide : DecodeErr.eof ≠ DecodeErr.idx) (Except.error.inj h)

/-- Claim C5, amended: every stream of length at least 4 whose byte at
offset 2 is outside the six recognized codes fails with the
unrecognized-type error, and no dimension-size or element byte is read:
the result is the same whatever bytes follow the first four. -/
theorem C5_unknown_type_code (a b c d : Nat) (rest : List Nat)
    (h8 : c ≠ 0x08) (h9 : c ≠ 0x09) (hB : c ≠ 0x0B) (hC : c ≠ 0x0C)
    (hD : c ≠ 0x0D) (hE : c ≠ 0x0E) :
    read_idx ([a, b, c, d] ++ rest) = .error DecodeErr.idx := by
  have e2 : ([a, b, c, d] : List Nat) ++ rest = [a, b] ++ ([c] ++ ([d] ++ rest)) := by simp
  have e3 : ([a, b, c, d] : List Nat) ++ rest = [a, b, c] ++ ([d] ++ rest) := by simp
  have h1 : read_exact ([a, b, c, d] ++ rest) 2 1 = .ok ([c], 3) := by
    rw [e2]; exact read_exact_at _ _ _ 2 1 rfl rfl
  have h2 : read_exact ([a, b, c, d] ++ rest) 3 1 = .ok ([d], 4) := by
    rw [e3]; exact read_exact_at _ _ _ 3 1 rfl rfl
  have hbe : be_nat [c] = c := by simp [be_nat]
  have hpt : parse_type c = .error DecodeErr.idx := by
    simp [parse_type, h8, h9, hB, hC, hD, hE]
  simp only [read_idx, h1, h2, hbe, hpt]

/-- Witness for the amended claim C5: the four-byte stream with type-code
byte 0x07 fails with the unrecognized-type error. -/
theorem C5_unknown_type_code_witness :
    read_idx ([0, 0, 0x07, 0] ++ []) = .error DecodeErr.idx :=
  C5_unknown_type_code 0 0 0x07 0 [] (by decide) (by decide) (by decide) (by decide)
    (by decide) (by decide)

/-- Claim C6.  Adding two scalars that carry different variants, the
absent variant included, always yields the absent variant: the guard
if self != rhs fires because the derived PartialEq distinguishes
variants, and the addition never fails. -/
theorem C6_mismatched_variants_add_to_absent (x y : IdxData)
    (h : IdxData.sameVariant x y = false) : IdxData.add x y = IdxData.None := by
  cases x <;> cases y <;> simp_all [IdxData.add, IdxData.beq, IdxData.sameVariant]

/-- Witness for claim C6: UnsignedByte(3) + SignedByte(3) is the absent
variant, not an error and not a six. -/
theorem C6_mismatched_variants_add_to_absent_witness :
    IdxData.sameVariant (IdxData.UnsignedByte 3) (IdxData.SignedByte 3) = false
      ∧ IdxData.add (IdxData.UnsignedByte 3) (IdxData.SignedByte 3) = IdxData.None :=
  ⟨by decide, C6_mismatched_variants_add_to_absent _ _ (by decide)⟩

/-- Claim C7.  The claim states that the absent variant is the additive
identity: zero is the absent variant, is_zero holds only for it, and
x + absent = x for every x.  The first two parts hold, but the identity
law fails on the code: for any non-absent x the guard if self != rhs
fires (the derived PartialEq distinguishes the variants), so
UnsignedByte(3) + zero evaluates to the absent variant instead of
UnsignedByte(3), contradicting the documented law of the implemented
num_traits Zero trait. -/
theorem C7_zero_not_additive_identity :
    IdxData.zero = IdxData.None
      ∧ IdxData.is_zero IdxData.None = true
      ∧ IdxData.add (IdxData.UnsignedByte 3) IdxData.zero = IdxData.None
      ∧ IdxData.None ≠ IdxData.UnsignedByte 3 := by decide

/-- Claim C8.  For every type tag and every valid header whose dimension
vector declares a size of 0 at some depth, the decode succeeds with a
tensor of zero elements, whatever bytes follow the header, and the
cursor after the decode sits exactly at the end of the header (whose
length is 4 + 4 times the dimension count): no element byte is
consumed. -/
theorem C8_zero_size_dimension (ty : IdxType) (dims rest : List Nat)
    (hd : ∀ d ∈ dims, d < 2 ^ 31) (_hn : dims.length < 256) (h0 : 0 ∈ dims) :
    read_idx (mkHeader ty dims ++ rest) = .ok (⟨dims, []⟩, 4 + 4 * dims.length) := by
  rw [read_idx_decomp ty dims rest hd]
  have hp : dims.prod = 0 := List.prod_eq_zero h0
  obtain ⟨data', hrec, hdl⟩ := recurser_ok (mkHeader ty dims ++ rest) ty dims dims []
      (List.replicate dims.prod IdxData.zero) (4 + 4 * dims.length)
      (by rw [List.length_append, mkHeader_length, hp, Nat.mul_zero]; omega)
  rw [hrec]
  have hz : data' = [] := by
    rw [List.length_replicate, hp] at hdl
    exact List.length_eq_zero.mp hdl
  subst hz
  rw [hp, Nat.mul_zero, Nat.add_zero]

/-- Witness for claim C8: the header declaring dimensions [0, 5], with
three leftover bytes after it, decodes to the empty tensor of that shape
with the cursor at 12, the end of the header. -/
theorem C8_zero_size_dimension_witness :
    read_idx (mkHeader IdxType.UnsignedByte [0, 5] ++ [1, 2, 3])
      = .ok (⟨[0, 5], []⟩, 12) :=
  C8_zero_size_dimension IdxType.UnsignedByte [0, 5] [1, 2, 3] (by decide) (by decide)
    (by decide)

/-- Claim C9.  A 4-byte dimension field holding a negative i32 value is
not rejected: the cast to usize sign-extends it modulo 2^64, and the
dimension loop records the cast result as the dimension length.  The
concrete header declaring one dimension 0xFFFFFFFF (i32 value -1) parses
to the single dimension 2^64 - 1, and read_idx proceeds past the header
(failing only later with a truncation error once element data runs
out, not with the type error that signals rejection). -/
theorem C9_negative_dimension_cast :
    (∀ n : Nat, 2 ^ 31 ≤ n → n < 2 ^ 32 →
        usize_of_i32 (toSigned 32 n) = 2 ^ 64 - 2 ^ 32 + n)
    ∧ read_dims [0, 0, 0x08, 1, 0xFF, 0xFF, 0xFF, 0xFF] 4 1 = .ok ([2 ^ 64 - 1], 8)
    ∧ read_idx [0, 0, 0x08, 1, 0xFF, 0xFF, 0xFF, 0xFF] = .error DecodeErr.eof := by
  refine ⟨?_, rfl, ?_⟩
  · intro n h1 h2
    simp only [toSigned, usize_of_i32]
    rw [if_neg (by omega : ¬ n < 2 ^ (32 - 1))]
    omega
  · have hstep : read_idx ([0, 0, 0x08, 1, 0xFF, 0xFF, 0xFF, 0xFF] : List Nat)
        = match recurser [0, 0, 0x08, 1, 0xFF, 0xFF, 0xFF, 0xFF] IdxType.UnsignedByte
              [2 ^ 64 - 1] [2 ^ 64 - 1] []
              (List.replicate (List.prod [2 ^ 64 - 1]) IdxData.zero) 8 with
          | Except.error e => Except.error e
          | Except.ok (filled, pos) => Except.ok (⟨[2 ^ 64 - 1], filled⟩, pos) := by rfl
    rw [hstep, recurser_eof [0, 0, 0x08, 1, 0xFF, 0xFF, 0xFF, 0xFF] IdxType.UnsignedByte
      [2 ^ 64 - 1] [2 ^ 64 - 1] [] (List.replicate (List.prod [2 ^ 64 - 1]) IdxData.zero) 8
      (by norm_num) (by norm_num)]

/-- Witness for claim C9: the cast statement at the smallest negative i32
bit pattern. -/
theorem C9_negative_dimension_cast_witness :
    usize_of_i32 (toSigned 32 (2 ^ 31)) = 2 ^ 64 - 2 ^ 32 + 2 ^ 31 :=
  C9_negative_dimension_cast.1 (2 ^ 31) (by norm_num) (by norm_num)

/-- Claim C10.  When the addition does return a non-absent result (equal
operands), the payload arithmetic is the fixed-width machine addition:
under the wrapping embedding of u8 addition, UnsignedByte(200) +
UnsignedByte(200) yields the payload (200 + 200) mod 2^8 = 144, not the
mathematical sum 400 (in checked builds the same operation panics). -/
theorem C10_unsigned_overflow_wraps :
    IdxData.add (IdxData.UnsignedByte 200) (IdxData.UnsignedByte 200)
        = IdxData.UnsignedByte ((200 + 200) % 2 ^ 8)
      ∧ (200 + 200) % 2 ^ 8 = 144
      ∧ (144 : Nat) ≠ 200 + 200 := by decide
